import Mathlib

set_option maxRecDepth 100000

/-!
Verification of the ai-lecture-notes backend core: the completion service
(`backend/services/gemini_service.py`) and the live-transcription WebSocket
relay (`backend/routes/transcribe.py`), shallowly embedded in Lean.

The embedding models Python values flowing through `json.loads` with an
explicit `Json` type, models each Python exception class that the source
code distinguishes (`json.JSONDecodeError`, `KeyError`, `TypeError`,
`AttributeError`, `IndexError`) with an explicit error type, and models the
retry loop of `GeminiService._call_api` as a fuel-indexed recursion whose
fuel is the source's `max_retries` bound.
-/

/-- Python/JSON values as produced by `json.loads`.  Numbers keep their raw
source token (the verified claims only pass numbers through, never compute
with them); `NaN`, `Infinity` and `-Infinity`, which Python's `json.loads`
accepts, are likewise kept as raw tokens. -/
inductive Json where
  | null : Json
  | bool (b : Bool) : Json
  | num (raw : String) : Json
  | str (s : String) : Json
  | arr (elems : List Json) : Json
  | obj (members : List (String × Json)) : Json
deriving Repr

/-- Python exception classes distinguished by the source code's handlers. -/
inductive PyErr where
  | jsonDecode
  | keyErr
  | typeErr
  | attrErr
  | indexErr
deriving DecidableEq, Repr

/-- JSON insignificant whitespace (also the ASCII core of what Python's
`str.strip()` removes; `str.strip()` additionally removes `\x0b`, `\x0c`
and Unicode spaces, which is immaterial for every input considered here). -/
def isJsonWs (c : Char) : Bool :=
  c == ' ' || c == '\t' || c == '\n' || c == '\r'

/-- `list.strip()`: drop whitespace from both ends. -/
def stripChars (cs : List Char) : List Char :=
  ((cs.dropWhile isJsonWs).reverse.dropWhile isJsonWs).reverse

/-- Python `str.strip()`. -/
def py_strip (s : String) : String :=
  String.mk (stripChars s.data)

/-- Value of a JSON string escape character (after the backslash). -/
def escChar (c : Char) : Option Char :=
  if c = '"' then some '"'
  else if c = '\\' then some '\\'
  else if c = '/' then some '/'
  else if c = 'b' then some (Char.ofNat 8)
  else if c = 'f' then some (Char.ofNat 12)
  else if c = 'n' then some '\n'
  else if c = 'r' then some '\r'
  else if c = 't' then some '\t'
  else none

/-- Hexadecimal digit value. -/
def hexVal (c : Char) : Option Nat :=
  if c.isDigit then some (c.toNat - 48)
  else if 'a' ≤ c && c ≤ 'f' then some (c.toNat - 87)
  else if 'A' ≤ c && c ≤ 'F' then some (c.toNat - 55)
  else none

/-- Parse the body of a JSON string literal (the opening quote already
consumed); returns the decoded characters and the input remaining after the
closing quote.  Control characters are rejected, as in strict `json.loads`. -/
def parseStrChars : List Char → Option (List Char × List Char)
  | [] => none
  | c :: rest =>
    if c = '"' then some ([], rest)
    else if c = '\\' then
      match rest with
      | [] => none
      | e :: rest2 =>
        if e = 'u' then
          match rest2 with
          | a :: b :: c2 :: d :: rest3 =>
            (match hexVal a, hexVal b, hexVal c2, hexVal d with
             | some ha, some hb, some hc, some hd =>
               (match parseStrChars rest3 with
                | some (s, r) => some (Char.ofNat (((ha * 16 + hb) * 16 + hc) * 16 + hd) :: s, r)
                | none => none)
             | _, _, _, _ => none)
          | _ => none
        else
          match escChar e with
          | some ec =>
            (match parseStrChars rest2 with
             | some (s, r) => some (ec :: s, r)
             | none => none)
          | none => none
    else if c.toNat < 32 then none
    else
      match parseStrChars rest with
      | some (s, r) => some (c :: s, r)
      | none => none

/-- Integer part of a JSON number: `0`, or a nonzero digit followed by
digits. -/
def parseIntDigits (cs : List Char) : Option (List Char × List Char) :=
  match cs with
  | [] => none
  | c :: rest =>
    if c = '0' then some ([ '0' ], rest)
    else if c.isDigit then some (c :: rest.takeWhile Char.isDigit, rest.dropWhile Char.isDigit)
    else none

/-- Optional fractional part of a JSON number. -/
def parseFracPart (cs : List Char) : Option (List Char × List Char) :=
  match cs with
  | '.' :: rest =>
    if (rest.takeWhile Char.isDigit).isEmpty then none
    else some ('.' :: rest.takeWhile Char.isDigit, rest.dropWhile Char.isDigit)
  | _ => some ([], cs)

/-- Optional exponent part of a JSON number. -/
def parseExpPart (cs : List Char) : Option (List Char × List Char) :=
  match cs with
  | [] => some ([], [])
  | c :: rest =>
    if c = 'e' || c = 'E' then
      match rest with
      | [] => none
      | s :: rest2 =>
        if s = '+' || s = '-' then
          if (rest2.takeWhile Char.isDigit).isEmpty then none
          else some (c :: s :: rest2.takeWhile Char.isDigit, rest2.dropWhile Char.isDigit)
        else
          if (rest.takeWhile Char.isDigit).isEmpty then none
          else some (c :: rest.takeWhile Char.isDigit, rest.dropWhile Char.isDigit)
    else some ([], c :: rest)

/-- The unsigned tail of a JSON number token: integer part, optional
fraction, optional exponent. -/
def parseUnsignedTok (cs : List Char) : Option (List Char × List Char) :=
  match parseIntDigits cs with
  | none => none
  | some (ip, cs2) =>
    match parseFracPart cs2 with
    | none => none
    | some (fp, cs3) =>
      match parseExpPart cs3 with
      | none => none
      | some (ep, cs4) => some (ip ++ fp ++ ep, cs4)

/-- A full JSON number token (sign, integer, fraction, exponent). -/
def parseNumberTok (cs : List Char) : Option (List Char × List Char) :=
  match cs with
  | '-' :: rest =>
    (match parseUnsignedTok rest with
     | some (tok, r) => some ('-' :: tok, r)
     | none => none)
  | _ => parseUnsignedTok cs

mutual

/-- Parse one JSON value (fuel-indexed; `json_loads` supplies enough fuel).
The dispatch follows the first significant character, exactly as the strict
`json.loads` scanner: objects, arrays, strings, the literals `true`,
`false`, `null`, `NaN`, `Infinity`, `-Infinity`, and otherwise a number. -/
def parseVal : Nat → List Char → Option (Json × List Char)
  | 0, _ => none
  | fuel + 1, cs =>
    match cs.dropWhile isJsonWs with
    | [] => none
    | c :: rest =>
      if c = '{' then
        match rest.dropWhile isJsonWs with
        | '}' :: rest2 => some (Json.obj [], rest2)
        | _ =>
          match parseMembers fuel rest with
          | some (ms, r) => some (Json.obj ms, r)
          | none => none
      else if c = '[' then
        match rest.dropWhile isJsonWs with
        | ']' :: rest2 => some (Json.arr [], rest2)
        | _ =>
          match parseElems fuel rest with
          | some (es, r) => some (Json.arr es, r)
          | none => none
      else if c = '"' then
        match parseStrChars rest with
        | some (s, r) => some (Json.str (String.mk s), r)
        | none => none
      else if c = 't' then
        match rest with
        | 'r' :: 'u' :: 'e' :: rest2 => some (Json.bool true, rest2)
        | _ => none
      else if c = 'f' then
        match rest with
        | 'a' :: 'l' :: 's' :: 'e' :: rest2 => some (Json.bool false, rest2)
        | _ => none
      else if c = 'n' then
        match rest with
        | 'u' :: 'l' :: 'l' :: rest2 => some (Json.null, rest2)
        | _ => none
      else if c = 'N' then
        match rest with
        | 'a' :: 'N' :: rest2 => some (Json.num "NaN", rest2)
        | _ => none
      else if c = 'I' then
        match rest with
        | 'n' :: 'f' :: 'i' :: 'n' :: 'i' :: 't' :: 'y' :: rest2 =>
          some (Json.num "Infinity", rest2)
        | _ => none
      else if c = '-' then
        match rest with
        | 'I' :: 'n' :: 'f' :: 'i' :: 'n' :: 'i' :: 't' :: 'y' :: rest2 =>
          some (Json.num "-Infinity", rest2)
        | _ =>
          match parseNumberTok (c :: rest) with
          | some (tok, r) => some (Json.num (String.mk tok), r)
          | none => none
      else
        match parseNumberTok (c :: rest) with
        | some (tok, r) => some (Json.num (String.mk tok), r)
        | none => none

/-- Parse the elements of a non-empty JSON array (opening bracket already
consumed), up to and including the closing bracket. -/
def parseElems : Nat → List Char → Option (List Json × List Char)
  | 0, _ => none
  | fuel + 1, cs =>
    match parseVal fuel cs with
    | none => none
    | some (v, r) =>
      match r.dropWhile isJsonWs with
      | ',' :: r2 =>
        (match parseElems fuel r2 with
         | some (vs, r3) => some (v :: vs, r3)
         | none => none)
      | ']' :: r2 => some ([v], r2)
      | _ => none

/-- Parse the members of a non-empty JSON object (opening brace already
consumed), up to and including the closing brace. -/
def parseMembers : Nat → List Char → Option (List (String × Json) × List Char)
  | 0, _ => none
  | fuel + 1, cs =>
    match cs.dropWhile isJsonWs with
    | '"' :: r =>
      (match parseStrChars r with
       | none => none
       | some (k, r1) =>
         match r1.dropWhile isJsonWs with
         | ':' :: r2 =>
           (match parseVal fuel r2 with
            | none => none
            | some (v, r3) =>
              match r3.dropWhile isJsonWs with
              | ',' :: r4 =>
                (match parseMembers fuel r4 with
                 | some (ms, r5) => some ((String.mk k, v) :: ms, r5)
                 | none => none)
              | '}' :: r4 => some ([(String.mk k, v)], r4)
              | _ => none)
         | _ => none)
    | _ => none

end

/-- Python's `json.loads`: strict parse of the whole input (modulo
surrounding whitespace), `none` modelling a raised `json.JSONDecodeError`.
Every recursive descent consumes at least one character, so `length + 1`
fuel never runs out on any input. -/
def json_loads (s : String) : Option Json :=
  let t := stripChars s.data
  match parseVal (t.length + 1) t with
  | some (v, []) => some v
  | _ => none

/-- Python `dict` lookup on parsed JSON members: later duplicate keys win,
as in `json.loads`. -/
def lookupLast (kvs : List (String × Json)) (k : String) : Option Json :=
  match kvs with
  | [] => none
  | (k2, v) :: rest =>
    match lookupLast rest k with
    | some r => some r
    | none => if k2 = k then some v else none

/-- Total field lookup: `none` when the value is not an object or lacks the
key (used to state hypotheses about envelopes, not by the embedded code). -/
def Json.lookup (j : Json) (k : String) : Option Json :=
  match j with
  | .obj kvs => lookupLast kvs k
  | _ => none

/-- Python `value[key]` for a string key: `KeyError` on a dict without the
key, `TypeError` on any non-dict. -/
def pySubscriptStr (j : Json) (k : String) : Except PyErr Json :=
  match j with
  | .obj kvs =>
    (match lookupLast kvs k with
     | some v => .ok v
     | none => .error .keyErr)
  | _ => .error .typeErr

/-- Python `value[0]`: `IndexError` on an empty list or string, the first
element of a list, a one-character string of a string, `KeyError` on a dict
(JSON object keys are strings, never the integer `0`), `TypeError`
otherwise. -/
def pyIndexZero (j : Json) : Except PyErr Json :=
  match j with
  | .arr [] => .error .indexErr
  | .arr (x :: _) => .ok x
  | .str s =>
    (match s.data with
     | [] => .error .indexErr
     | c :: _ => .ok (.str (String.mk [c])))
  | .obj _ => .error .keyErr
  | _ => .error .typeErr

/-- Python `value.get(key, default)`: `AttributeError` on a non-dict. -/
def pyGetDefault (j : Json) (k : String) (d : Json) : Except PyErr Json :=
  match j with
  | .obj kvs => .ok ((lookupLast kvs k).getD d)
  | _ => .error .attrErr

/-- Is a raw JSON number token numerically zero (Python falsy)?  `NaN` and
the infinities are truthy; otherwise a float is zero exactly when every
mantissa digit is `0`. -/
def jsonNumIsZero (raw : String) : Bool :=
  if raw = "NaN" || raw = "Infinity" || raw = "-Infinity" then false
  else (raw.data.takeWhile (fun c => c != 'e' && c != 'E')).all (fun c => !c.isDigit || c == '0')

/-- Python truthiness of a decoded JSON value. -/
def truthy (j : Json) : Bool :=
  match j with
  | .null => false
  | .bool b => b
  | .num raw => !(jsonNumIsZero raw)
  | .str s => !(s.data.isEmpty)
  | .arr l => !(l.isEmpty)
  | .obj kvs => !(kvs.isEmpty)

/-! ## `backend/services/gemini_service.py` -/

/-- `text.startswith("```")` on character lists (also used, applied to the
reversed list, for `text.endswith("```")`). -/
def startsWithFence (cs : List Char) : Bool :=
  match cs with
  | '`' :: '`' :: '`' :: _ => true
  | _ => false

/-- `text[text.index("\n") + 1:]`, `none` when `index` raises `ValueError`
because the text has no newline. -/
def dropFenceLine (cs : List Char) : Option (List Char) :=
  match cs.dropWhile (fun c => c != '\n') with
  | '\n' :: rest => some rest
  | _ => none

/-- `_clean_json_response`: strip, drop a leading markdown fence line, drop
a trailing fence, strip again.  Returns `none` when the Python code raises:
`text.index("\n")` raises `ValueError` when the stripped text starts with a
fence but contains no newline. -/
def clean_json_response (text : String) : Option String :=
  match
    (if startsWithFence (stripChars text.data) then dropFenceLine (stripChars text.data)
     else some (stripChars text.data)) with
  | none => none
  | some t1 =>
    some (String.mk (stripChars
      (if startsWithFence t1.reverse then (t1.reverse.drop 3).reverse else t1)))

/-- The summary-schema fallback document built in `GeminiService.summarize`
when `json.loads` fails: one quick-view bullet holding the raw completion
text, empty detailed sections, empty exam collections. -/
def summary_fallback (text : String) : Json :=
  Json.obj
    [("quick", Json.obj [("title", Json.str "Quick Summary"),
                         ("points", Json.arr [Json.str text])]),
     ("detailed", Json.obj [("title", Json.str "Detailed Summary"),
                            ("sections", Json.arr [])]),
     ("exam", Json.obj [("title", Json.str "Exam-Focused Summary"),
                        ("definitions", Json.arr []),
                        ("key_examples", Json.arr []),
                        ("repeated_points", Json.arr []),
                        ("potential_questions", Json.arr [])])]

/-- The normalization step of `GeminiService.summarize` applied to the raw
completion text returned by `_call_api` (lines 140-154): clean, strictly
parse, fall back on `json.JSONDecodeError`.  `none` models the uncaught
`ValueError` escaping from `_clean_json_response`. -/
def summarize_normalize (text : String) : Option Json :=
  match clean_json_response text with
  | none => none
  | some raw =>
    some
      (match json_loads raw with
       | some j => j
       | none => summary_fallback text)

/-- One HTTP response as observed by `_call_api`: status code and body text. -/
structure HttpResponse where
  status : Nat
  text : String

/-- `data["choices"][0]["message"]["content"]` evaluated on the parsed body
of a 200 response, each step raising the Python exception the corresponding
subscript would raise. -/
def extract_content (r : HttpResponse) : Except PyErr Json :=
  match json_loads r.text with
  | none => .error .jsonDecode
  | some data =>
    pySubscriptStr data "choices" >>= fun cs =>
    pyIndexZero cs >>= fun c0 =>
    pySubscriptStr c0 "message" >>= fun m =>
    pySubscriptStr m "content"

/-- The error message computed for a non-retried non-200 response:
`body.get("error", {}).get("message", resp.text[:300])`, with any exception
inside the `try` replaced by `resp.text[:300]`. -/
def upstream_err_msg (r : HttpResponse) : Json :=
  let trunc := Json.str (String.mk (r.text.data.take 300))
  match json_loads r.text with
  | none => trunc
  | some body =>
    match body with
    | .obj kvs =>
      (match lookupLast kvs "error" with
       | none => trunc
       | some e =>
         match e with
         | .obj ekvs =>
           (match lookupLast ekvs "message" with
            | some m => m
            | none => trunc)
         | _ => trunc)
    | _ => trunc

/-- How one call to `_call_api` ends: the 200 content, a Python exception
from decoding the 200 body, the `RuntimeError(f"{status}: {msg}")` raised
for a non-retried non-200 response, or the post-loop
`RuntimeError("Max retries exceeded")`. -/
inductive CallResult where
  | ok (content : Json)
  | pyError (e : PyErr)
  | httpError (status : Nat) (msg : Json)
  | maxRetriesExceeded
deriving Repr

/-- Observable outcome of `_call_api`: the backoff sleeps performed (in
seconds, in order), the number of POST attempts made, and the result. -/
structure CallOutcome where
  sleeps : List Nat
  attempts : Nat
  result : CallResult

/-- `max_retries` in `_call_api`. -/
def max_retries : Nat := 5

/-- The body of `_call_api`'s `for attempt in range(max_retries)` loop.
`resps` gives the response of each attempt; the first argument is the list
of attempt indices still to run.  Exhausting the list without returning or
raising is the loop falling through to
`raise RuntimeError("Max retries exceeded")`. -/
def callApiLoop (resps : Nat → HttpResponse) : List Nat → List Nat → CallOutcome
  | [], sleeps => ⟨sleeps, max_retries, CallResult.maxRetriesExceeded⟩
  | attempt :: laterAttempts, sleeps =>
    let r := resps attempt
    if r.status = 200 then
      ⟨sleeps, attempt + 1,
        match extract_content r with
        | .ok c => CallResult.ok c
        | .error e => CallResult.pyError e⟩
    else if r.status = 429 ∧ attempt < max_retries - 1 then
      callApiLoop resps laterAttempts (sleeps ++ [2 ^ attempt * 5])
    else
      ⟨sleeps, attempt + 1, CallResult.httpError r.status (upstream_err_msg r)⟩

/-- `GeminiService._call_api`, as a function of the per-attempt responses. -/
def call_api (resps : Nat → HttpResponse) : CallOutcome :=
  callApiLoop resps (List.range max_retries) []

/-! ## `backend/routes/transcribe.py` -/

/-- The Deepgram connection URL with its fixed query parameters, exactly as
concatenated in the source. -/
def DEEPGRAM_WS_URL : String :=
  "wss://api.deepgram.com/v1/listen"
    ++ "?model=nova-3"
    ++ "&language=en"
    ++ "&punctuate=true"
    ++ "&interim_results=true"
    ++ "&utterance_end_ms=1000"
    ++ "&filler_words=true"
    ++ "&smart_format=false"

/-- Split a character list on a separator. -/
def splitOnChar (sep : Char) : List Char → List (List Char)
  | [] => [[]]
  | c :: rest =>
    if c = sep then [] :: splitOnChar sep rest
    else
      match splitOnChar sep rest with
      | [] => [[c]]
      | p :: ps => (c :: p) :: ps

/-- The query parameters of a URL, in order. -/
def queryParams (url : String) : List (String × String) :=
  let afterQ := (url.data.dropWhile (fun c => c != '?')).drop 1
  (splitOnChar '&' afterQ).map fun kv =>
    (String.mk (kv.takeWhile (fun c => c != '=')),
     String.mk ((kv.dropWhile (fun c => c != '=')).drop 1))

/-- First query parameter with the given key. -/
def getQueryParam (url : String) (k : String) : Option String :=
  (queryParams url).lookup k

/-- Externally visible actions of the `transcribe_ws` handler, in order. -/
inductive WsAction where
  | close (code : Nat) (reason : String)
  | accept
  | sendJson (j : Json)
  | connectUpstream (url : String) (authHeader : String)
  | runPumps

/-- The action trace of the `transcribe_ws` handler up to the start of the
two pump tasks.  `decoded` is the result of `jwt.decode` on the token
(`none` models any `pyjwt` exception: malformed, bad signature, expired;
`pyjwt` only ever returns a JSON-object payload).  `runPumps` abstracts the
streaming phase, which starts only after a successful upstream connect. -/
def transcribe_ws (token : String) (decoded : Option (List (String × Json)))
    (apiKey : String) : List WsAction :=
  if token.data.isEmpty then [WsAction.close 4001 "Missing token"]
  else
    match decoded with
    | none => [WsAction.close 4001 "Invalid token"]
    | some payload =>
      if !(truthy ((lookupLast payload "sub").getD Json.null)) then
        [WsAction.close 4001 "Invalid token"]
      else if apiKey.data.isEmpty then
        [WsAction.accept,
         WsAction.sendJson (Json.obj [("type", Json.str "fallback"),
           ("message", Json.str "Deepgram not configured, use browser speech")]),
         WsAction.close 1000 ""]
      else
        [WsAction.accept,
         WsAction.connectUpstream DEEPGRAM_WS_URL ("Token " ++ apiKey),
         WsAction.sendJson (Json.obj [("type", Json.str "ready")]),
         WsAction.runPumps]

/-- `data.get("type") == "Results"` (Python equality against a string never
raises and is false for every non-string). -/
def isResultsType (ty : Json) : Bool :=
  match ty with
  | .str s => s == "Results"
  | _ => false

/-- The body of `deepgram_to_client`'s inner `try` for one upstream message:
`ok (some event)` when a transcript event is sent, `ok none` when the
message is skipped by the code's own control flow, `error e` when a Python
exception is raised. -/
def process_results_msg (msg : String) : Except PyErr (Option Json) :=
  match json_loads msg with
  | none => .error .jsonDecode
  | some data =>
    pyGetDefault data "type" Json.null >>= fun ty =>
    if isResultsType ty then
      pyGetDefault data "channel" (Json.obj []) >>= fun ch =>
      pyGetDefault ch "alternatives" (Json.arr [Json.obj []]) >>= fun alts =>
      pyIndexZero alts >>= fun alt =>
      pyGetDefault alt "transcript" (Json.str "") >>= fun text =>
      if truthy text then
        pyGetDefault alt "words" (Json.arr []) >>= fun words =>
        (if truthy words then
          pyIndexZero words >>= fun w => pySubscriptStr w "start"
         else pyGetDefault data "start" (Json.num "0")) >>= fun startSec =>
        pyGetDefault data "is_final" (Json.bool false) >>= fun isF =>
        pyGetDefault data "speech_final" (Json.bool false) >>= fun spF =>
        pure (some (Json.obj [("type", Json.str "transcript"),
                              ("text", text),
                              ("is_final", isF),
                              ("speech_final", spF),
                              ("start", startSec)]))
      else pure none
    else pure none

/-- Effect of one upstream message on the upstream-to-client pump. -/
inductive PumpStep where
  | skip
  | send (event : Json)
  | stop

/-- One iteration of `deepgram_to_client`: the inner handler catches exactly
`json.JSONDecodeError` and `KeyError` (continuing the loop); any other
exception escapes to the outer `except Exception: pass`, silently
terminating the pump. -/
def deepgram_to_client_step (msg : String) : PumpStep :=
  match process_results_msg msg with
  | .ok none => .skip
  | .ok (some e) => .send e
  | .error .jsonDecode => .skip
  | .error .keyErr => .skip
  | .error _ => .stop

/-! ## Concrete inputs used to instantiate and to refute claims -/

/-- A trace that performs nothing but closes: no accept, no event sent to
the client, no upstream connection, no pumps. -/
def onlyCloses (tr : List WsAction) : Bool :=
  tr.all fun a =>
    match a with
    | WsAction.close _ _ => true
    | _ => false

/-- A completion content wrapped in a markdown code fence, as the model
sometimes returns. -/
def fence_wrap (d : String) : String :=
  "```json\n" ++ d ++ "\n```"

/-- Every attempt rate-limited: status 429 with an empty body. -/
def const429Responses : Nat → HttpResponse := fun _ => ⟨429, ""⟩

/-- A 400-character upstream error message. -/
def longErrText : String := String.mk (List.replicate 400 'a')

/-- A 400 response whose JSON body carries `longErrText` under
`error.message`. -/
def resp400Long : HttpResponse :=
  ⟨400, "\x7b\"error\": \x7b\"message\": \"" ++ longErrText ++ "\"\x7d\x7d"⟩

/-- The upstream scenario message of the specification (§8). -/
def specResultsMsg : String :=
  "\x7b\"type\":\"Results\",\"channel\":\x7b\"alternatives\":[\x7b\"transcript\":\"hello world\",\"words\":[\x7b\"start\":1.2\x7d]\x7d]\x7d,\"is_final\":true,\"speech_final\":true\x7d"

/-- The first (and only) alternative's first word in `specResultsMsg`. -/
def specWord : Json := Json.obj [("start", Json.num "1.2")]

/-- The first (and only) alternative in `specResultsMsg`. -/
def specAlt : Json :=
  Json.obj [("transcript", Json.str "hello world"), ("words", Json.arr [specWord])]

/-- The channel object in `specResultsMsg`. -/
def specChannel : Json := Json.obj [("alternatives", Json.arr [specAlt])]

/-- The parsed envelope of `specResultsMsg`. -/
def specEnvelope : Json :=
  Json.obj [("type", Json.str "Results"), ("channel", specChannel),
            ("is_final", Json.bool true), ("speech_final", Json.bool true)]

/-- A Results envelope whose `alternatives` list is explicitly empty. -/
def emptyAlternativesMsg : String :=
  "\x7b\"type\": \"Results\", \"channel\": \x7b\"alternatives\": []\x7d\x7d"

/-! ## Helper lemmas -/

/-- A nonempty string has nonempty character data. -/
theorem data_not_empty_of_ne {s : String} (h : s ≠ "") : s.data.isEmpty = false := by
  cases s with
  | mk l =>
    cases l with
    | nil => exact absurd rfl h
    | cons c cs => rfl

/-- One unfolding of the retry loop. -/
theorem callApiLoop_cons (resps : Nat → HttpResponse) (a : Nat) (rest sleeps : List Nat) :
    callApiLoop resps (a :: rest) sleeps =
      if (resps a).status = 200 then
        ⟨sleeps, a + 1,
          match extract_content (resps a) with
          | .ok c => CallResult.ok c
          | .error e => CallResult.pyError e⟩
      else if (resps a).status = 429 ∧ a < max_retries - 1 then
        callApiLoop resps rest (sleeps ++ [2 ^ a * 5])
      else
        ⟨sleeps, a + 1, CallResult.httpError (resps a).status (upstream_err_msg (resps a))⟩ :=
  rfl

/-- A throttled attempt with retry budget left sleeps and retries. -/
theorem callApiLoop_throttle (resps : Nat → HttpResponse) (a : Nat)
    (rest sleeps : List Nat) (h : (resps a).status = 429) (hlt : a < max_retries - 1) :
    callApiLoop resps (a :: rest) sleeps = callApiLoop resps rest (sleeps ++ [2 ^ a * 5]) := by
  rw [callApiLoop_cons, if_neg (by rw [h]; decide), if_pos ⟨h, hlt⟩]

/-- A non-200 non-429 attempt raises the status-carrying error at once. -/
theorem callApiLoop_fail (resps : Nat → HttpResponse) (a : Nat)
    (rest sleeps : List Nat) (h200 : (resps a).status ≠ 200) (h429 : (resps a).status ≠ 429) :
    callApiLoop resps (a :: rest) sleeps =
      ⟨sleeps, a + 1, CallResult.httpError (resps a).status (upstream_err_msg (resps a))⟩ := by
  rw [callApiLoop_cons, if_neg h200, if_neg (fun hc => h429 hc.1)]

/-- A throttled attempt with no retry budget left also raises the
status-carrying error at once. -/
theorem callApiLoop_last_throttle (resps : Nat → HttpResponse) (a : Nat)
    (rest sleeps : List Nat) (h200 : (resps a).status ≠ 200) (hge : ¬(a < max_retries - 1)) :
    callApiLoop resps (a :: rest) sleeps =
      ⟨sleeps, a + 1, CallResult.httpError (resps a).status (upstream_err_msg (resps a))⟩ := by
  rw [callApiLoop_cons, if_neg h200, if_neg (fun hc => hge hc.2)]

/-- As long as some attempt of the list is outside the retry budget, the
loop cannot fall through to the retry-exhaustion raise. -/
theorem callApiLoop_ne_max (resps : Nat → HttpResponse) :
    ∀ (attempts sleeps : List Nat),
      (∃ a ∈ attempts, ¬(a < max_retries - 1)) →
      (callApiLoop resps attempts sleeps).result ≠ CallResult.maxRetriesExceeded := by
  intro attempts
  induction attempts with
  | nil =>
    intro sleeps hex
    rcases hex with ⟨a, ha, _⟩
    exact absurd ha (List.not_mem_nil a)
  | cons a rest ih =>
    intro sleeps hex
    rw [callApiLoop_cons]
    by_cases h200 : (resps a).status = 200
    · rw [if_pos h200]
      cases hx : extract_content (resps a) <;> simp [hx]
    · by_cases hg : (resps a).status = 429 ∧ a < max_retries - 1
      · rw [if_neg h200, if_pos hg]
        apply ih
        rcases hex with ⟨b, hb, hbad⟩
        rcases List.mem_cons.mp hb with hba | hbr
        · exact absurd (hba ▸ hg.2) hbad
        · exact ⟨b, hbr, hbad⟩
      · rw [if_neg h200, if_neg hg]
        exact fun hh => CallResult.noConfusion hh

/-! ## C4 -/

/-- C4: for every connection whose token query parameter is absent (empty)
or fails `jwt.decode` (malformed, expired, or invalid signature), the relay
closes immediately with close code 4001 and performs no accept, no send and
no upstream interaction. -/
theorem transcribe_ws_rejects_bad_token (token : String)
    (decoded : Option (List (String × Json))) (apiKey : String)
    (h : token = "" ∨ decoded = none) :
    ∃ reason, transcribe_ws token decoded apiKey = [WsAction.close 4001 reason] ∧
      onlyCloses (transcribe_ws token decoded apiKey) = true := by
  by_cases ht : token.data.isEmpty
  · exact ⟨"Missing token", by simp [transcribe_ws, ht], by simp [transcribe_ws, ht, onlyCloses]⟩
  · have hd : decoded = none := by
      rcases h with h1 | h2
      · subst h1; exact absurd rfl ht
      · exact h2
    subst hd
    exact ⟨"Invalid token", by simp [transcribe_ws, ht], by simp [transcribe_ws, ht, onlyCloses]⟩

/-- C4 witness: connecting with no token. -/
theorem transcribe_ws_rejects_bad_token_witness :
    (("" : String) = "" ∨ (none : Option (List (String × Json))) = none) ∧
    ∃ reason, transcribe_ws "" none "key" = [WsAction.close 4001 reason] ∧
      onlyCloses (transcribe_ws "" none "key") = true :=
  ⟨Or.inl rfl, transcribe_ws_rejects_bad_token "" none "key" (Or.inl rfl)⟩

/-! ## C10 -/

/-- C10: a token that decodes successfully (valid signature, unexpired) but
whose payload has a missing or empty `sub` claim is rejected with the same
close code 4001 used for malformed tokens, before the connection is
accepted and before any upstream interaction. -/
theorem transcribe_ws_rejects_missing_sub (token : String)
    (payload : List (String × Json)) (apiKey : String) (ht : token ≠ "")
    (hs : lookupLast payload "sub" = none ∨ lookupLast payload "sub" = some (Json.str "")) :
    transcribe_ws token (some payload) apiKey = [WsAction.close 4001 "Invalid token"] ∧
      onlyCloses (transcribe_ws token (some payload) apiKey) = true := by
  have ht2 : token.data.isEmpty = false := data_not_empty_of_ne ht
  have hfalse : truthy ((lookupLast payload "sub").getD Json.null) = false := by
    rcases hs with h | h <;> rw [h] <;> rfl
  constructor <;> simp [transcribe_ws, ht2, hfalse, onlyCloses]

/-- C10 witness: a payload with no `sub` member at all. -/
theorem transcribe_ws_rejects_missing_sub_witness :
    ("tok" : String) ≠ "" ∧ lookupLast [] "sub" = none ∧
    transcribe_ws "tok" (some []) "key" = [WsAction.close 4001 "Invalid token"] :=
  ⟨by decide, rfl,
    (transcribe_ws_rejects_missing_sub "tok" [] "key" (by decide) (Or.inl rfl)).1⟩

/-! ## C7 -/

/-- C7 counterexample: the upstream URL requests `punctuate=true`, i.e.
punctuation ON, not the claimed "punctuation off". -/
theorem deepgram_url_punctuate_on :
    getQueryParam DEEPGRAM_WS_URL "punctuate" = some "true" ∧
      getQueryParam DEEPGRAM_WS_URL "punctuate" ≠ some "false" := by
  refine ⟨rfl, ?_⟩
  intro h
  rw [show getQueryParam DEEPGRAM_WS_URL "punctuate" = some "true" from rfl] at h
  simp at h

/-- C7 (amended): every upstream session uses the fixed query parameters
model=nova-3, language=en, punctuation ON, interim results on, 1000 ms
utterance-end threshold, filler words on (and smart_format off), and
authenticates with the header value `Token <key>`. -/
theorem deepgram_upstream_params (token : String) (payload : List (String × Json))
    (apiKey : String) (ht : token ≠ "")
    (hs : truthy ((lookupLast payload "sub").getD Json.null) = true)
    (hk : apiKey ≠ "") :
    queryParams DEEPGRAM_WS_URL =
      [("model", "nova-3"), ("language", "en"), ("punctuate", "true"),
       ("interim_results", "true"), ("utterance_end_ms", "1000"),
       ("filler_words", "true"), ("smart_format", "false")] ∧
    transcribe_ws token (some payload) apiKey =
      [WsAction.accept,
       WsAction.connectUpstream DEEPGRAM_WS_URL ("Token " ++ apiKey),
       WsAction.sendJson (Json.obj [("type", Json.str "ready")]),
       WsAction.runPumps] := by
  have ht2 : token.data.isEmpty = false := data_not_empty_of_ne ht
  have hk2 : apiKey.data.isEmpty = false := data_not_empty_of_ne hk
  exact ⟨rfl, by simp [transcribe_ws, ht2, hk2, hs]⟩

/-- C7 witness: a concrete authenticated session. -/
theorem deepgram_upstream_params_witness :
    truthy ((lookupLast [("sub", Json.str "u1")] "sub").getD Json.null) = true ∧
    transcribe_ws "tok" (some [("sub", Json.str "u1")]) "dgkey" =
      [WsAction.accept,
       WsAction.connectUpstream DEEPGRAM_WS_URL ("Token " ++ "dgkey"),
       WsAction.sendJson (Json.obj [("type", Json.str "ready")]),
       WsAction.runPumps] :=
  ⟨rfl, (deepgram_upstream_params "tok" [("sub", Json.str "u1")] "dgkey"
      (by decide) rfl (by decide)).2⟩

/-! ## C1 -/

/-- C1 counterexample: when every attempt returns 429, `_call_api` makes 5
attempts with backoff sleeps 5, 10, 20, 40 — but it fails with the
status-carrying `RuntimeError(f"429: ...")`, not with the dedicated
retry-exhaustion raise (`"Max retries exceeded"`). -/
theorem call_api_all_throttled_no_exhaustion_raise :
    (call_api const429Responses).sleeps = [5, 10, 20, 40] ∧
    (call_api const429Responses).attempts = 5 ∧
    (call_api const429Responses).result = CallResult.httpError 429 (Json.str "") ∧
    (call_api const429Responses).result ≠ CallResult.maxRetriesExceeded :=
  ⟨rfl, rfl, rfl, fun h => CallResult.noConfusion h⟩

/-- C1 (amended): when every attempt returns 429, `_call_api` makes exactly
5 POST attempts, sleeps exactly 5 s, 10 s, 20 s, 40 s between consecutive
attempts, and fails with the status-carrying error holding status 429 and
the message computed from the final response's body; the dedicated
retry-exhaustion raise is not reached. -/
theorem call_api_all_throttled (resps : Nat → HttpResponse)
    (h : ∀ i, i < max_retries → (resps i).status = 429) :
    call_api resps =
      ⟨[5, 10, 20, 40], 5, CallResult.httpError 429 (upstream_err_msg (resps 4))⟩ := by
  have h0 := h 0 (by decide)
  have h1 := h 1 (by decide)
  have h2 := h 2 (by decide)
  have h3 := h 3 (by decide)
  have h4 := h 4 (by decide)
  show callApiLoop resps [0, 1, 2, 3, 4] [] = _
  rw [callApiLoop_throttle resps 0 _ _ h0 (by decide),
    callApiLoop_throttle resps 1 _ _ h1 (by decide),
    callApiLoop_throttle resps 2 _ _ h2 (by decide),
    callApiLoop_throttle resps 3 _ _ h3 (by decide),
    callApiLoop_last_throttle resps 4 _ _ (by rw [h4]; decide) (by decide), h4]
  rfl

/-- C1 witness: the all-429 responses. -/
theorem call_api_all_throttled_witness :
    (∀ i, i < max_retries → (const429Responses i).status = 429) ∧
    call_api const429Responses =
      ⟨[5, 10, 20, 40], 5, CallResult.httpError 429 (upstream_err_msg (const429Responses 4))⟩ :=
  ⟨fun _ _ => rfl, call_api_all_throttled const429Responses (fun _ _ => rfl)⟩

/-! ## C9 -/

/-- C9: the post-loop retry-exhaustion raise of `_call_api` is unreachable:
no sequence of responses makes the call end in `maxRetriesExceeded`, and
when the final attempt also returns 429 the call fails through the same
status-carrying error path as any other non-200 response, with status 429
and the message computed from the final body. -/
theorem call_api_exhaustion_unreachable (resps : Nat → HttpResponse) :
    (call_api resps).result ≠ CallResult.maxRetriesExceeded ∧
    ((∀ i, i < max_retries → (resps i).status = 429) →
      (call_api resps).result = CallResult.httpError 429 (upstream_err_msg (resps 4))) := by
  constructor
  · exact callApiLoop_ne_max resps (List.range max_retries) [] ⟨4, by decide, by decide⟩
  · intro h
    have h0 := h 0 (by decide)
    have h1 := h 1 (by decide)
    have h2 := h 2 (by decide)
    have h3 := h 3 (by decide)
    have h4 := h 4 (by decide)
    show (callApiLoop resps [0, 1, 2, 3, 4] []).result = _
    rw [callApiLoop_throttle resps 0 _ _ h0 (by decide),
      callApiLoop_throttle resps 1 _ _ h1 (by decide),
      callApiLoop_throttle resps 2 _ _ h2 (by decide),
      callApiLoop_throttle resps 3 _ _ h3 (by decide),
      callApiLoop_last_throttle resps 4 _ _ (by rw [h4]; decide) (by decide), h4]

/-- C9 witness: the all-429 responses end in the 429 status error. -/
theorem call_api_exhaustion_unreachable_witness :
    (call_api const429Responses).result ≠ CallResult.maxRetriesExceeded ∧
    (call_api const429Responses).result =
      CallResult.httpError 429 (upstream_err_msg (const429Responses 4)) :=
  ⟨(call_api_exhaustion_unreachable const429Responses).1,
   (call_api_exhaustion_unreachable const429Responses).2 (fun _ _ => rfl)⟩

/-! ## C6 -/

set_option maxRecDepth 8000 in
/-- C6 counterexample: a 400 response whose JSON body carries a
400-character `error.message` makes `_call_api` raise an error carrying
that message in full — not truncated to the first ~300 characters. -/
theorem call_api_error_message_not_truncated :
    upstream_err_msg resp400Long = Json.str longErrText ∧
    longErrText.length = 400 ∧
    ¬(longErrText.length ≤ 300) ∧
    (call_api fun _ => resp400Long).result =
      CallResult.httpError 400 (Json.str longErrText) := by
  have hl : longErrText.length = 400 := rfl
  exact ⟨rfl, hl, by rw [hl]; decide, rfl⟩

/-- C6 (amended): an attempt returning a non-200 status other than 429
(after any earlier attempts were all 429) fails immediately with no further
attempts, raising the status-carrying error whose message is the body's
`error.message` field in full when the body is a JSON object carrying one,
and the raw body truncated to its first 300 characters otherwise. -/
theorem call_api_non_throttle_fails_fast (resps : Nat → HttpResponse) (k : Nat)
    (hk : k < max_retries) (hprior : ∀ i, i < k → (resps i).status = 429)
    (h200 : (resps k).status ≠ 200) (h429 : (resps k).status ≠ 429) :
    call_api resps =
      ⟨(List.range k).map (fun i => 2 ^ i * 5), k + 1,
        CallResult.httpError (resps k).status (upstream_err_msg (resps k))⟩ := by
  have hk5 : k < 5 := hk
  show callApiLoop resps [0, 1, 2, 3, 4] [] = _
  interval_cases k
  · rw [callApiLoop_fail resps 0 _ _ h200 h429]
    rfl
  · rw [callApiLoop_throttle resps 0 _ _ (hprior 0 (by decide)) (by decide),
      callApiLoop_fail resps 1 _ _ h200 h429]
    rfl
  · rw [callApiLoop_throttle resps 0 _ _ (hprior 0 (by decide)) (by decide),
      callApiLoop_throttle resps 1 _ _ (hprior 1 (by decide)) (by decide),
      callApiLoop_fail resps 2 _ _ h200 h429]
    rfl
  · rw [callApiLoop_throttle resps 0 _ _ (hprior 0 (by decide)) (by decide),
      callApiLoop_throttle resps 1 _ _ (hprior 1 (by decide)) (by decide),
      callApiLoop_throttle resps 2 _ _ (hprior 2 (by decide)) (by decide),
      callApiLoop_fail resps 3 _ _ h200 h429]
    rfl
  · rw [callApiLoop_throttle resps 0 _ _ (hprior 0 (by decide)) (by decide),
      callApiLoop_throttle resps 1 _ _ (hprior 1 (by decide)) (by decide),
      callApiLoop_throttle resps 2 _ _ (hprior 2 (by decide)) (by decide),
      callApiLoop_throttle resps 3 _ _ (hprior 3 (by decide)) (by decide),
      callApiLoop_fail resps 4 _ _ h200 h429]
    rfl

/-- C6 witness: a first-attempt 400 with a plain-text body. -/
theorem call_api_non_throttle_fails_fast_witness :
    (0 < max_retries) ∧
    call_api (fun _ => ⟨400, "boom"⟩) =
      ⟨[], 1, CallResult.httpError 400 (Json.str "boom")⟩ :=
  ⟨by decide,
    call_api_non_throttle_fails_fast (fun _ => ⟨400, "boom"⟩) 0 (by decide)
      (fun i h => absurd h (Nat.not_lt_zero i)) (by decide) (by decide)⟩

/-! ## C3 -/

/-- C3 counterexample: the content consisting of a bare code fence is not
valid JSON, yet `summarize` does not return the fallback document — it
raises (`text.index("\n")` raises `ValueError` inside
`_clean_json_response`, which `summarize` does not catch). -/
theorem summarize_fence_without_newline_raises :
    json_loads "```" = none ∧
    summarize_normalize "```" = none ∧
    summarize_normalize "```" ≠ some (summary_fallback "```") :=
  ⟨rfl, rfl, fun h => Option.noConfusion h⟩

/-- C3 (amended): for every completion content on which fence-stripping
succeeds and whose fence-stripped text is not valid JSON, `summarize`
returns (never raises) a document whose `quick.points` is the one-element
list holding the raw content, whose `detailed.sections` is empty and whose
`exam` collections are all empty. -/
theorem summarize_falls_back_on_bad_json (text raw : String)
    (h1 : clean_json_response text = some raw) (h2 : json_loads raw = none) :
    summarize_normalize text =
      some (Json.obj
        [("quick", Json.obj [("title", Json.str "Quick Summary"),
                             ("points", Json.arr [Json.str text])]),
         ("detailed", Json.obj [("title", Json.str "Detailed Summary"),
                                ("sections", Json.arr [])]),
         ("exam", Json.obj [("title", Json.str "Exam-Focused Summary"),
                            ("definitions", Json.arr []),
                            ("key_examples", Json.arr []),
                            ("repeated_points", Json.arr []),
                            ("potential_questions", Json.arr [])])]) := by
  simp only [summarize_normalize, h1, h2]
  rfl

/-- C3 witness: a plain non-JSON completion. -/
theorem summarize_falls_back_on_bad_json_witness :
    clean_json_response "not json" = some "not json" ∧
    json_loads "not json" = none ∧
    summarize_normalize "not json" =
      some (Json.obj
        [("quick", Json.obj [("title", Json.str "Quick Summary"),
                             ("points", Json.arr [Json.str "not json"])]),
         ("detailed", Json.obj [("title", Json.str "Detailed Summary"),
                                ("sections", Json.arr [])]),
         ("exam", Json.obj [("title", Json.str "Exam-Focused Summary"),
                            ("definitions", Json.arr []),
                            ("key_examples", Json.arr []),
                            ("repeated_points", Json.arr []),
                            ("potential_questions", Json.arr [])])]) :=
  ⟨rfl, rfl, summarize_falls_back_on_bad_json "not json" "not json" rfl rfl⟩

/-! ## C2 -/

/-- Bind on a successful `Except` computation. -/
theorem except_ok_bind {α β : Type} (x : α) (f : α → Except PyErr β) :
    (Except.ok x >>= f) = f x := rfl

/-- Bind on a failed `Except` computation. -/
theorem except_error_bind {α β : Type} (e : PyErr) (f : α → Except PyErr β) :
    ((Except.error e : Except PyErr α) >>= f) = Except.error e := rfl

/-- `pure` on `Except`. -/
theorem except_pure {α : Type} (x : α) : (pure x : Except PyErr α) = Except.ok x := rfl

/-- A successful field lookup forces the value to be an object. -/
theorem lookup_forces_obj {j : Json} {k : String} {v : Json} (h : j.lookup k = some v) :
    ∃ kvs, j = Json.obj kvs ∧ lookupLast kvs k = some v := by
  cases j with
  | obj kvs => exact ⟨kvs, rfl, h⟩
  | null => exact Option.noConfusion h
  | bool b => exact Option.noConfusion h
  | num r => exact Option.noConfusion h
  | str s => exact Option.noConfusion h
  | arr l => exact Option.noConfusion h

/-- C2 (amended): a Results envelope with a non-empty first-alternative
transcript yields exactly one forwarded transcript event with the
envelope's `is_final`/`speech_final` values and the first word's start
offset when word timing is present, else the envelope's overall start
offset; an envelope with an empty transcript is skipped; a message that is
not JSON is skipped (the decode error is caught); but an envelope whose
`alternatives` list is present and empty raises an uncaught `IndexError`
that silently terminates the pump rather than being skipped. -/
theorem deepgram_pump_forwards_transcripts :
    (∀ (msg : String) (env ch alt : Json) (rest : List Json) (t : String)
       (s w : Json) (ws : List Json) (bf sf : Json),
       json_loads msg = some env →
       env.lookup "type" = some (Json.str "Results") →
       env.lookup "channel" = some ch →
       ch.lookup "alternatives" = some (Json.arr (alt :: rest)) →
       alt.lookup "transcript" = some (Json.str t) →
       t ≠ "" →
       alt.lookup "words" = some (Json.arr (w :: ws)) →
       w.lookup "start" = some s →
       env.lookup "is_final" = some bf →
       env.lookup "speech_final" = some sf →
       deepgram_to_client_step msg =
         PumpStep.send (Json.obj [("type", Json.str "transcript"),
           ("text", Json.str t), ("is_final", bf), ("speech_final", sf), ("start", s)])) ∧
    (∀ (msg : String) (env ch alt : Json) (rest : List Json) (t : String)
       (s0 bf sf : Json),
       json_loads msg = some env →
       env.lookup "type" = some (Json.str "Results") →
       env.lookup "channel" = some ch →
       ch.lookup "alternatives" = some (Json.arr (alt :: rest)) →
       alt.lookup "transcript" = some (Json.str t) →
       t ≠ "" →
       (alt.lookup "words" = none ∨ alt.lookup "words" = some (Json.arr [])) →
       env.lookup "start" = some s0 →
       env.lookup "is_final" = some bf →
       env.lookup "speech_final" = some sf →
       deepgram_to_client_step msg =
         PumpStep.send (Json.obj [("type", Json.str "transcript"),
           ("text", Json.str t), ("is_final", bf), ("speech_final", sf), ("start", s0)])) ∧
    (∀ (msg : String) (env ch alt : Json) (rest : List Json),
       json_loads msg = some env →
       env.lookup "type" = some (Json.str "Results") →
       env.lookup "channel" = some ch →
       ch.lookup "alternatives" = some (Json.arr (alt :: rest)) →
       alt.lookup "transcript" = some (Json.str "") →
       deepgram_to_client_step msg = PumpStep.skip) ∧
    (∀ msg : String, json_loads msg = none → deepgram_to_client_step msg = PumpStep.skip) ∧
    (∀ (msg : String) (env ch : Json),
       json_loads msg = some env →
       env.lookup "type" = some (Json.str "Results") →
       env.lookup "channel" = some ch →
       ch.lookup "alternatives" = some (Json.arr []) →
       deepgram_to_client_step msg = PumpStep.stop) := by
  refine ⟨?_, ?_, ?_, ?_, ?_⟩
  · intro msg env ch alt rest t s w ws bf sf hparse hty hch halts htr htne hw hws hisf hspf
    obtain ⟨ekvs, rfl, hty2⟩ := lookup_forces_obj hty
    obtain ⟨ckvs, rfl, halts2⟩ := lookup_forces_obj halts
    obtain ⟨akvs, rfl, htr2⟩ := lookup_forces_obj htr
    obtain ⟨wkvs, rfl, hws2⟩ := lookup_forces_obj hws
    simp only [Json.lookup] at hch hisf hspf hw
    have hp : process_results_msg msg =
        Except.ok (some (Json.obj [("type", Json.str "transcript"),
          ("text", Json.str t), ("is_final", bf), ("speech_final", sf), ("start", s)])) := by
      simp [process_results_msg, hparse, pyGetDefault, hty2, hch, halts2, htr2, hw, hws2,
        hisf, hspf, except_ok_bind, except_pure, pyIndexZero, pySubscriptStr, isResultsType,
        truthy, data_not_empty_of_ne htne]
    simp only [deepgram_to_client_step, hp]
  · intro msg env ch alt rest t s0 bf sf hparse hty hch halts htr htne hw hstart hisf hspf
    obtain ⟨ekvs, rfl, hty2⟩ := lookup_forces_obj hty
    obtain ⟨ckvs, rfl, halts2⟩ := lookup_forces_obj halts
    obtain ⟨akvs, rfl, htr2⟩ := lookup_forces_obj htr
    simp only [Json.lookup] at hch hisf hspf hw hstart
    have hwd : (lookupLast akvs "words").getD (Json.arr []) = Json.arr [] := by
      rcases hw with h | h <;> rw [h] <;> rfl
    have hp : process_results_msg msg =
        Except.ok (some (Json.obj [("type", Json.str "transcript"),
          ("text", Json.str t), ("is_final", bf), ("speech_final", sf), ("start", s0)])) := by
      simp [process_results_msg, hparse, pyGetDefault, hty2, hch, halts2, htr2, hwd,
        hstart, hisf, hspf, except_ok_bind, except_pure, pyIndexZero, pySubscriptStr,
        isResultsType, truthy, data_not_empty_of_ne htne]
    simp only [deepgram_to_client_step, hp]
  · intro msg env ch alt rest hparse hty hch halts htr
    obtain ⟨ekvs, rfl, hty2⟩ := lookup_forces_obj hty
    obtain ⟨ckvs, rfl, halts2⟩ := lookup_forces_obj halts
    obtain ⟨akvs, rfl, htr2⟩ := lookup_forces_obj htr
    simp only [Json.lookup] at hch
    have hp : process_results_msg msg = Except.ok none := by
      simp [process_results_msg, hparse, pyGetDefault, hty2, hch, halts2, htr2,
        except_ok_bind, except_pure, pyIndexZero, pySubscriptStr, isResultsType, truthy]
    simp only [deepgram_to_client_step, hp]
  · intro msg hparse
    have hp : process_results_msg msg = Except.error PyErr.jsonDecode := by
      simp [process_results_msg, hparse]
    simp only [deepgram_to_client_step, hp]
  · intro msg env ch hparse hty hch halts
    obtain ⟨ekvs, rfl, hty2⟩ := lookup_forces_obj hty
    obtain ⟨ckvs, rfl, halts2⟩ := lookup_forces_obj halts
    simp only [Json.lookup] at hch
    have hp : process_results_msg msg = Except.error PyErr.indexErr := by
      simp [process_results_msg, hparse, pyGetDefault, hty2, hch, halts2,
        except_ok_bind, except_error_bind, pyIndexZero, isResultsType]
    simp only [deepgram_to_client_step, hp]

/-- C2 counterexample: a Results envelope whose `alternatives` list is
explicitly empty is not skipped: the uncaught `IndexError` terminates the
pump. -/
theorem deepgram_pump_empty_alternatives_stops :
    json_loads emptyAlternativesMsg =
      some (Json.obj [("type", Json.str "Results"),
        ("channel", Json.obj [("alternatives", Json.arr [])])]) ∧
    deepgram_to_client_step emptyAlternativesMsg = PumpStep.stop ∧
    deepgram_to_client_step emptyAlternativesMsg ≠ PumpStep.skip :=
  ⟨rfl, rfl, fun h => PumpStep.noConfusion h⟩

/-- C2 witness: the specification's scenario message. -/
theorem deepgram_pump_forwards_transcripts_witness :
    json_loads specResultsMsg = some specEnvelope ∧
    deepgram_to_client_step specResultsMsg =
      PumpStep.send (Json.obj [("type", Json.str "transcript"),
        ("text", Json.str "hello world"), ("is_final", Json.bool true),
        ("speech_final", Json.bool true), ("start", Json.num "1.2")]) :=
  ⟨rfl,
    deepgram_pump_forwards_transcripts.1 specResultsMsg specEnvelope specChannel specAlt
      [] "hello world" (Json.num "1.2") specWord [] (Json.bool true) (Json.bool true)
      rfl rfl rfl rfl rfl (by decide) rfl rfl rfl rfl⟩

/-! ## C5: properties of `stripChars` and the parser needed for fence laws -/

/-- The first element surviving `dropWhile` fails the predicate. -/
theorem dropWhile_head_false {α : Type} {p : α → Bool} :
    ∀ {l : List α} {c : α} {l2 : List α}, List.dropWhile p l = c :: l2 → p c = false := by
  intro l
  induction l with
  | nil => intro c l2 h; exact absurd h (by simp)
  | cons x xs ih =>
    intro c l2 h
    cases hpx : p x with
    | true =>
      rw [List.dropWhile_cons_of_pos hpx] at h
      exact ih h
    | false =>
      rw [List.dropWhile_cons_of_neg (by simp [hpx])] at h
      obtain ⟨h1, h2⟩ := List.cons.inj h
      rw [← h1]; exact hpx

/-- `stripChars cs` is a prefix of `cs.dropWhile isJsonWs`. -/
theorem stripChars_eq_dropWhile_append (cs : List Char) :
    ∃ suf, cs.dropWhile isJsonWs = stripChars cs ++ suf := by
  refine ⟨((cs.dropWhile isJsonWs).reverse.takeWhile isJsonWs).reverse, ?_⟩
  have hd : (cs.dropWhile isJsonWs).reverse.takeWhile isJsonWs ++
      (cs.dropWhile isJsonWs).reverse.dropWhile isJsonWs = (cs.dropWhile isJsonWs).reverse :=
    List.takeWhile_append_dropWhile isJsonWs _
  calc cs.dropWhile isJsonWs
      = (cs.dropWhile isJsonWs).reverse.reverse := (List.reverse_reverse _).symm
    _ = ((cs.dropWhile isJsonWs).reverse.takeWhile isJsonWs ++
          (cs.dropWhile isJsonWs).reverse.dropWhile isJsonWs).reverse := by rw [hd]
    _ = ((cs.dropWhile isJsonWs).reverse.dropWhile isJsonWs).reverse ++
          ((cs.dropWhile isJsonWs).reverse.takeWhile isJsonWs).reverse := by
        rw [List.reverse_append]
    _ = stripChars cs ++ ((cs.dropWhile isJsonWs).reverse.takeWhile isJsonWs).reverse := rfl

/-- The head of a stripped character list is not whitespace. -/
theorem stripChars_head_not_ws {cs : List Char} {c : Char} {rest : List Char}
    (h : stripChars cs = c :: rest) : isJsonWs c = false := by
  obtain ⟨suf, hsuf⟩ := stripChars_eq_dropWhile_append cs
  rw [h, List.cons_append] at hsuf
  exact dropWhile_head_false hsuf

/-- The last element of a stripped character list is not whitespace. -/
theorem stripChars_last_not_ws {cs : List Char} {c : Char} {pre : List Char}
    (h : stripChars cs = pre ++ [c]) : isJsonWs c = false := by
  have h2 : (cs.dropWhile isJsonWs).reverse.dropWhile isJsonWs = (stripChars cs).reverse := by
    unfold stripChars; rw [List.reverse_reverse]
  rw [h] at h2
  simp only [List.reverse_append, List.reverse_cons, List.reverse_nil, List.nil_append,
    List.cons_append] at h2
  exact dropWhile_head_false h2

/-- Stripping does nothing when neither end is whitespace. -/
theorem stripChars_noop {cs : List Char} (h1 : cs.dropWhile isJsonWs = cs)
    (h2 : cs.reverse.dropWhile isJsonWs = cs.reverse) : stripChars cs = cs := by
  unfold stripChars; rw [h1, h2, List.reverse_reverse]

/-- `dropWhile` does nothing when the head (if any) fails the predicate. -/
theorem dropWhile_noop_of_head {cs : List Char}
    (h : ∀ c rest, cs = c :: rest → isJsonWs c = false) : cs.dropWhile isJsonWs = cs := by
  cases cs with
  | nil => rfl
  | cons c rest => rw [List.dropWhile_cons_of_neg (by simp [h c rest rfl])]

/-- Stripping is idempotent. -/
theorem stripChars_idem (cs : List Char) : stripChars (stripChars cs) = stripChars cs := by
  cases hsc : stripChars cs with
  | nil => rfl
  | cons c rest =>
    apply stripChars_noop
    · apply dropWhile_noop_of_head
      intro c2 r2 he
      obtain ⟨he1, _⟩ := List.cons.inj he
      rw [← he1]; exact stripChars_head_not_ws hsc
    · apply dropWhile_noop_of_head
      intro c2 r2 he
      have hrev : c :: rest = r2.reverse ++ [c2] := by
        have h3 := congrArg List.reverse he
        simpa using h3
      exact @stripChars_last_not_ws cs c2 r2.reverse (by rw [hsc]; exact hrev)

/-- Appending one trailing whitespace character does not change the strip. -/
theorem stripChars_append_ws {cs : List Char} {c : Char} (hc : isJsonWs c = true) :
    stripChars (cs ++ [c]) = stripChars cs := by
  by_cases hnil : cs.dropWhile isJsonWs = []
  · have h2 : (cs ++ [c]).dropWhile isJsonWs = [] := by
      rw [List.dropWhile_append, hnil]
      simp [hc]
    unfold stripChars
    rw [hnil, h2]
  · have h2 : (cs ++ [c]).dropWhile isJsonWs = cs.dropWhile isJsonWs ++ [c] := by
      rw [List.dropWhile_append, if_neg (by simpa [List.isEmpty_iff] using hnil)]
    unfold stripChars
    rw [h2, List.reverse_append]
    simp only [List.reverse_cons, List.reverse_nil, List.nil_append, List.singleton_append]
    rw [List.dropWhile_cons_of_pos hc]

/-- A digit character is not whitespace. -/
theorem digit_not_ws {c : Char} (h : c.isDigit = true) : isJsonWs c = false := by
  cases hw : isJsonWs c with
  | false => rfl
  | true =>
    exfalso
    simp [isJsonWs] at hw
    rcases hw with ((h1 | h1) | h1) | h1 <;> subst h1 <;> exact absurd h (by decide)

/-- A digit character is not a backtick. -/
theorem digit_ne_backtick {c : Char} (h : c.isDigit = true) : c ≠ '`' := by
  intro he; subst he; exact absurd h (by decide)

/-- Everything a successful `parseStrChars` consumed ends with the closing
quote. -/
theorem parseStrChars_tail_aux :
    ∀ (n : Nat) (cs : List Char), cs.length ≤ n →
    ∀ (s rest : List Char), parseStrChars cs = some (s, rest) →
    ∃ pre, cs = pre ++ '"' :: rest := by
  intro n
  induction n with
  | zero =>
    intro cs hl s rest h
    cases cs with
    | nil => exact Option.noConfusion h
    | cons c r => rw [List.length_cons] at hl; omega
  | succ n ihn =>
    intro cs hl s rest h
    rw [parseStrChars.eq_def] at h
    split at h
    · exact Option.noConfusion h
    · rename_i c r
      by_cases hq : c = '"'
      · rw [if_pos hq] at h
        have h0 := Option.some.inj h
        cases h0
        exact ⟨[], by rw [hq]; rfl⟩
      · rw [if_neg hq] at h
        by_cases hb : c = '\\'
        · rw [if_pos hb] at h
          split at h
          · exact Option.noConfusion h
          · rename_i e r2
            by_cases hu : e = 'u'
            · rw [if_pos hu] at h
              split at h
              · rename_i a0 b0 c0 d0 r3
                split at h
                · split at h
                  · rename_i s1 r1 hrec
                    have h0 := Option.some.inj h
                    cases h0
                    have hlen : r3.length ≤ n := by simp at hl; omega
                    obtain ⟨pre, hpre⟩ := ihn r3 hlen _ _ hrec
                    exact ⟨'\\' :: 'u' :: a0 :: b0 :: c0 :: d0 :: pre, by
                      rw [hb, hu, hpre]; rfl⟩
                  · exact Option.noConfusion h
                · exact Option.noConfusion h
              · exact Option.noConfusion h
            · rw [if_neg hu] at h
              split at h
              · rename_i ec hesc
                split at h
                · rename_i s1 r1 hrec
                  have h0 := Option.some.inj h
                  cases h0
                  have hlen : r2.length ≤ n := by simp at hl; omega
                  obtain ⟨pre, hpre⟩ := ihn r2 hlen _ _ hrec
                  exact ⟨'\\' :: e :: pre, by rw [hb, hpre]; rfl⟩
                · exact Option.noConfusion h
              · exact Option.noConfusion h
        · rw [if_neg hb] at h
          by_cases hc32 : c.toNat < 32
          · rw [if_pos hc32] at h
            exact Option.noConfusion h
          · rw [if_neg hc32] at h
            split at h
            · rename_i s1 r1 hrec
              have h0 := Option.some.inj h
              cases h0
              have hlen : r.length ≤ n := by simp at hl; omega
              obtain ⟨pre, hpre⟩ := ihn r hlen _ _ hrec
              exact ⟨c :: pre, by rw [hpre]; rfl⟩
            · exact Option.noConfusion h

/-- Wrapper for `parseStrChars_tail_aux` at the natural fuel. -/
theorem parseStrChars_tail {cs s rest : List Char}
    (h : parseStrChars cs = some (s, rest)) : ∃ pre, cs = pre ++ '"' :: rest :=
  parseStrChars_tail_aux cs.length cs (Nat.le_refl _) s rest h

/-- A nonempty `takeWhile Char.isDigit` run ends in a digit. -/
theorem takeWhile_digits_last {r : List Char}
    (hne : ¬(r.takeWhile Char.isDigit).isEmpty = true) :
    ∃ p d, r.takeWhile Char.isDigit = p ++ [d] ∧ d.isDigit = true := by
  rcases List.eq_nil_or_concat (r.takeWhile Char.isDigit) with he | ⟨l2, a, he⟩
  · rw [he] at hne; exact absurd rfl hne
  · rw [List.concat_eq_append] at he
    refine ⟨l2, a, he, ?_⟩
    exact List.mem_takeWhile_imp (by rw [he]; exact List.mem_append_right l2 (by simp))

/-- What a successful `parseIntDigits` tells us about its input and output. -/
theorem parseIntDigits_facts {cs ip rest : List Char}
    (h : parseIntDigits cs = some (ip, rest)) :
    cs = ip ++ rest ∧ (∃ p d, ip = p ++ [d] ∧ d.isDigit = true) ∧
      (∃ c r, cs = c :: r ∧ c.isDigit = true) := by
  unfold parseIntDigits at h
  split at h
  · exact Option.noConfusion h
  · rename_i c r
    by_cases h0 : c = '0'
    · rw [if_pos h0] at h
      have h2 := Option.some.inj h
      cases h2
      subst h0
      exact ⟨rfl, ⟨[], '0', rfl, by decide⟩, ⟨'0', _, rfl, by decide⟩⟩
    · rw [if_neg h0] at h
      by_cases hd : c.isDigit
      · rw [if_pos hd] at h
        have h2 := Option.some.inj h
        cases h2
        refine ⟨?_, ?_, ⟨c, r, rfl, hd⟩⟩
        · rw [List.cons_append, List.takeWhile_append_dropWhile]
        · rcases List.eq_nil_or_concat (r.takeWhile Char.isDigit) with he | ⟨l2, a, he⟩
          · exact ⟨[], c, by rw [he]; rfl, hd⟩
          · rw [List.concat_eq_append] at he
            refine ⟨c :: l2, a, by rw [he]; rfl, ?_⟩
            exact List.mem_takeWhile_imp (by rw [he]; exact List.mem_append_right l2 (by simp))
      · rw [if_neg hd] at h
        exact Option.noConfusion h

/-- What a successful `parseFracPart` tells us. -/
theorem parseFracPart_facts {cs fp rest : List Char}
    (h : parseFracPart cs = some (fp, rest)) :
    cs = fp ++ rest ∧ (fp = [] ∨ ∃ p d, fp = p ++ [d] ∧ d.isDigit = true) := by
  unfold parseFracPart at h
  split at h
  · rename_i r
    split at h
    · exact Option.noConfusion h
    · rename_i hne
      have h2 := Option.some.inj h
      cases h2
      refine ⟨by rw [List.cons_append, List.takeWhile_append_dropWhile], Or.inr ?_⟩
      obtain ⟨p, d, hp, hd⟩ := takeWhile_digits_last hne
      exact ⟨'.' :: p, d, by rw [hp]; rfl, hd⟩
  · have h2 := Option.some.inj h
    cases h2
    exact ⟨rfl, Or.inl rfl⟩

/-- What a successful `parseExpPart` tells us. -/
theorem parseExpPart_facts {cs ep rest : List Char}
    (h : parseExpPart cs = some (ep, rest)) :
    cs = ep ++ rest ∧ (ep = [] ∨ ∃ p d, ep = p ++ [d] ∧ d.isDigit = true) := by
  unfold parseExpPart at h
  split at h
  · have h2 := Option.some.inj h
    cases h2
    exact ⟨rfl, Or.inl rfl⟩
  · rename_i c r
    split at h
    · split at h
      · exact Option.noConfusion h
      · rename_i s r2
        split at h
        · split at h
          · exact Option.noConfusion h
          · rename_i hne
            have h2 := Option.some.inj h
            cases h2
            refine ⟨by rw [List.cons_append, List.cons_append,
              List.takeWhile_append_dropWhile], Or.inr ?_⟩
            obtain ⟨p, d, hp, hd⟩ := takeWhile_digits_last hne
            exact ⟨c :: s :: p, d, by rw [hp]; rfl, hd⟩
        · split at h
          · exact Option.noConfusion h
          · rename_i hne
            have h2 := Option.some.inj h
            cases h2
            refine ⟨by rw [List.cons_append, List.takeWhile_append_dropWhile], Or.inr ?_⟩
            obtain ⟨p, d, hp, hd⟩ := takeWhile_digits_last hne
            exact ⟨c :: p, d, by rw [hp]; rfl, hd⟩
    · have h2 := Option.some.inj h
      cases h2
      exact ⟨rfl, Or.inl rfl⟩

/-- The consumed part of a successful `parseUnsignedTok` ends in a digit
just before the remainder. -/
theorem parseUnsignedTok_tail {cs tok rest : List Char}
    (h : parseUnsignedTok cs = some (tok, rest)) :
    ∃ pre d, cs = pre ++ d :: rest ∧ d.isDigit = true := by
  unfold parseUnsignedTok at h
  split at h
  · exact Option.noConfusion h
  · rename_i ip cs2 heqI
    split at h
    · exact Option.noConfusion h
    · rename_i fp cs3 heqF
      split at h
      · exact Option.noConfusion h
      · rename_i ep cs4 heqE
        have h2 := Option.some.inj h
        cases h2
        obtain ⟨hI1, ⟨pI, dI, hIp, hIdig⟩, -⟩ := parseIntDigits_facts heqI
        obtain ⟨hF1, hFor⟩ := parseFracPart_facts heqF
        obtain ⟨hE1, hEor⟩ := parseExpPart_facts heqE
        rcases hEor with hE0 | ⟨pE, dE, hEp, hEdig⟩
        · rcases hFor with hF0 | ⟨pF, dF, hFp, hFdig⟩
          · refine ⟨pI, dI, ?_, hIdig⟩
            subst hE0; subst hF0
            rw [hI1, hF1, hE1, hIp]
            simp
          · refine ⟨ip ++ pF, dF, ?_, hFdig⟩
            subst hE0
            rw [hI1, hF1, hE1, hFp]
            simp
        · refine ⟨ip ++ fp ++ pE, dE, ?_, hEdig⟩
          rw [hI1, hF1, hE1, hEp]
          simp

/-- The consumed part of a successful `parseNumberTok` ends in a digit just
before the remainder, and its input starts with a minus sign or a digit. -/
theorem parseNumberTok_facts {cs tok rest : List Char}
    (h : parseNumberTok cs = some (tok, rest)) :
    (∃ pre d, cs = pre ++ d :: rest ∧ d.isDigit = true) ∧
      (∃ c r, cs = c :: r ∧ (c = '-' ∨ c.isDigit = true)) := by
  unfold parseNumberTok at h
  split at h
  · rename_i r
    split at h
    · rename_i tok2 r2 heq
      obtain ⟨pre, d, hpre, hd⟩ := parseUnsignedTok_tail heq
      have h2 := Option.some.inj h
      cases h2
      exact ⟨⟨'-' :: pre, d, by rw [hpre]; rfl, hd⟩, ⟨'-', r, rfl, Or.inl rfl⟩⟩
    · exact Option.noConfusion h
  · obtain ⟨pre, d, hpre, hd⟩ := parseUnsignedTok_tail h
    have heqI : ∃ ip cs2, parseIntDigits cs = some (ip, cs2) := by
      unfold parseUnsignedTok at h
      split at h
      · exact Option.noConfusion h
      · rename_i ip cs2 heqI2
        exact ⟨ip, cs2, heqI2⟩
    obtain ⟨ip, cs2, heqI2⟩ := heqI
    obtain ⟨-, -, c, r, hc, hcd⟩ := parseIntDigits_facts heqI2
    exact ⟨⟨pre, d, hpre, hd⟩, ⟨c, r, hc, Or.inr hcd⟩⟩

/-- Split a list at the result of `dropWhile`. -/
theorem dropWhile_decomp {cs ds : List Char} (h : cs.dropWhile isJsonWs = ds) :
    cs = cs.takeWhile isJsonWs ++ ds := by
  rw [← h, List.takeWhile_append_dropWhile]

/-- A successful `parseVal` dispatches on a non-backtick character. -/
theorem parseVal_dispatch {fuel : Nat} {cs : List Char} {v : Json} {rest : List Char}
    (h : parseVal fuel cs = some (v, rest)) :
    ∃ c cs2, cs.dropWhile isJsonWs = c :: cs2 ∧ c ≠ '`' := by
  cases fuel with
  | zero => exact Option.noConfusion h
  | succ fuel =>
    cases hd : cs.dropWhile isJsonWs with
    | nil =>
      simp only [parseVal] at h
      rw [hd] at h
      exact Option.noConfusion h
    | cons c cs2 =>
      refine ⟨c, cs2, rfl, ?_⟩
      intro hbt
      subst hbt
      simp only [parseVal] at h
      rw [hd] at h
      exact Option.noConfusion h

/-- The characters a successful parse consumed end, just before the
remaining input, in a closing brace/bracket/quote, a literal's last letter,
or a digit — never a backtick and never whitespace.  Stated for the three
mutually recursive parsers at every fuel. -/
theorem parse_consumed_tail (fuel : Nat) :
    (∀ cs v rest, parseVal fuel cs = some (v, rest) →
      ∃ pre c, cs = pre ++ c :: rest ∧ c ≠ '`' ∧ isJsonWs c = false) ∧
    (∀ cs es rest, parseElems fuel cs = some (es, rest) →
      ∃ pre, cs = pre ++ ']' :: rest) ∧
    (∀ cs ms rest, parseMembers fuel cs = some (ms, rest) →
      ∃ pre, cs = pre ++ '}' :: rest) := by
  induction fuel with
  | zero =>
    refine ⟨?_, ?_, ?_⟩ <;> intro cs x rest h <;> exact Option.noConfusion h
  | succ fuel ih =>
    obtain ⟨ihv, ihe, ihm⟩ := ih
    refine ⟨?_, ?_, ?_⟩
    · intro cs v rest h
      simp only [parseVal] at h
      split at h
      · exact Option.noConfusion h
      · rename_i c rest1 heq
        have e1 := dropWhile_decomp heq
        by_cases hc1 : c = '{'
        · rw [if_pos hc1] at h
          split at h
          · rename_i rest2 heq2
            have h2 := Option.some.inj h
            cases h2
            have e2 := dropWhile_decomp heq2
            have e3 : cs = (cs.takeWhile isJsonWs ++ c :: rest1.takeWhile isJsonWs)
                ++ '}' :: rest := by
              conv_lhs => rw [e1, e2]
              simp
            exact ⟨_, '}', e3, by decide, by decide⟩
          · split at h
            · rename_i ms r heqm
              have h2 := Option.some.inj h
              cases h2
              obtain ⟨pre, hpre⟩ := ihm rest1 ms rest heqm
              have e3 : cs = (cs.takeWhile isJsonWs ++ c :: pre) ++ '}' :: rest := by
                conv_lhs => rw [e1, hpre]
                simp
              exact ⟨_, '}', e3, by decide, by decide⟩
            · exact Option.noConfusion h
        · rw [if_neg hc1] at h
          by_cases hc2 : c = '['
          · rw [if_pos hc2] at h
            split at h
            · rename_i rest2 heq2
              have h2 := Option.some.inj h
              cases h2
              have e2 := dropWhile_decomp heq2
              have e3 : cs = (cs.takeWhile isJsonWs ++ c :: rest1.takeWhile isJsonWs)
                  ++ ']' :: rest := by
                conv_lhs => rw [e1, e2]
                simp
              exact ⟨_, ']', e3, by decide, by decide⟩
            · split at h
              · rename_i es r heqe
                have h2 := Option.some.inj h
                cases h2
                obtain ⟨pre, hpre⟩ := ihe rest1 es rest heqe
                have e3 : cs = (cs.takeWhile isJsonWs ++ c :: pre) ++ ']' :: rest := by
                  conv_lhs => rw [e1, hpre]
                  simp
                exact ⟨_, ']', e3, by decide, by decide⟩
              · exact Option.noConfusion h
          · rw [if_neg hc2] at h
            by_cases hc3 : c = '"'
            · rw [if_pos hc3] at h
              split at h
              · rename_i s1 r heqs
                have h2 := Option.some.inj h
                cases h2
                obtain ⟨pre, hpre⟩ := parseStrChars_tail heqs
                have e3 : cs = (cs.takeWhile isJsonWs ++ c :: pre) ++ '"' :: rest := by
                  conv_lhs => rw [e1, hpre]
                  simp
                exact ⟨_, '"', e3, by decide, by decide⟩
              · exact Option.noConfusion h
            · rw [if_neg hc3] at h
              by_cases hc4 : c = 't'
              · rw [if_pos hc4] at h
                split at h
                · rename_i rest2
                  have h2 := Option.some.inj h
                  cases h2
                  have e3 : cs = (cs.takeWhile isJsonWs ++ [c, 'r', 'u']) ++ 'e' :: rest := by
                    conv_lhs => rw [e1]
                    simp
                  exact ⟨_, 'e', e3, by decide, by decide⟩
                · exact Option.noConfusion h
              · rw [if_neg hc4] at h
                by_cases hc5 : c = 'f'
                · rw [if_pos hc5] at h
                  split at h
                  · rename_i rest2
                    have h2 := Option.some.inj h
                    cases h2
                    have e3 : cs = (cs.takeWhile isJsonWs ++ [c, 'a', 'l', 's'])
                        ++ 'e' :: rest := by
                      conv_lhs => rw [e1]
                      simp
                    exact ⟨_, 'e', e3, by decide, by decide⟩
                  · exact Option.noConfusion h
                · rw [if_neg hc5] at h
                  by_cases hc6 : c = 'n'
                  · rw [if_pos hc6] at h
                    split at h
                    · rename_i rest2
                      have h2 := Option.some.inj h
                      cases h2
                      have e3 : cs = (cs.takeWhile isJsonWs ++ [c, 'u', 'l'])
                          ++ 'l' :: rest := by
                        conv_lhs => rw [e1]
                        simp
                      exact ⟨_, 'l', e3, by decide, by decide⟩
                    · exact Option.noConfusion h
                  · rw [if_neg hc6] at h
                    by_cases hc7 : c = 'N'
                    · rw [if_pos hc7] at h
                      split at h
                      · rename_i rest2
                        have h2 := Option.some.inj h
                        cases h2
                        have e3 : cs = (cs.takeWhile isJsonWs ++ [c, 'a'])
                            ++ 'N' :: rest := by
                          conv_lhs => rw [e1]
                          simp
                        exact ⟨_, 'N', e3, by decide, by decide⟩
                      · exact Option.noConfusion h
                    · rw [if_neg hc7] at h
                      by_cases hc8 : c = 'I'
                      · rw [if_pos hc8] at h
                        split at h
                        · rename_i rest2
                          have h2 := Option.some.inj h
                          cases h2
                          have e3 : cs = (cs.takeWhile isJsonWs
                              ++ [c, 'n', 'f', 'i', 'n', 'i', 't']) ++ 'y' :: rest := by
                            conv_lhs => rw [e1]
                            simp
                          exact ⟨_, 'y', e3, by decide, by decide⟩
                        · exact Option.noConfusion h
                      · rw [if_neg hc8] at h
                        by_cases hc9 : c = '-'
                        · rw [if_pos hc9] at h
                          split at h
                          · rename_i rest2
                            have h2 := Option.some.inj h
                            cases h2
                            have e3 : cs = (cs.takeWhile isJsonWs
                                ++ [c, 'I', 'n', 'f', 'i', 'n', 'i', 't'])
                                ++ 'y' :: rest := by
                              conv_lhs => rw [e1]
                              simp
                            exact ⟨_, 'y', e3, by decide, by decide⟩
                          · split at h
                            · rename_i tok r heqn
                              have h2 := Option.some.inj h
                              cases h2
                              obtain ⟨⟨pre, d, hpre, hdig⟩, -⟩ := parseNumberTok_facts heqn
                              have e3 : cs = (cs.takeWhile isJsonWs ++ pre)
                                  ++ d :: rest := by
                                conv_lhs => rw [e1, hpre]
                                simp
                              exact ⟨_, d, e3, digit_ne_backtick hdig, digit_not_ws hdig⟩
                            · exact Option.noConfusion h
                        · rw [if_neg hc9] at h
                          split at h
                          · rename_i tok r heqn
                            have h2 := Option.some.inj h
                            cases h2
                            obtain ⟨⟨pre, d, hpre, hdig⟩, -⟩ := parseNumberTok_facts heqn
                            have e3 : cs = (cs.takeWhile isJsonWs ++ pre) ++ d :: rest := by
                              conv_lhs => rw [e1, hpre]
                              simp
                            exact ⟨_, d, e3, digit_ne_backtick hdig, digit_not_ws hdig⟩
                          · exact Option.noConfusion h
    · intro cs es rest h
      simp only [parseElems] at h
      split at h
      · exact Option.noConfusion h
      · rename_i v1 r heqv
        split at h
        · rename_i r2 heq2
          split at h
          · rename_i vs r3 heqe
            have h2 := Option.some.inj h
            cases h2
            obtain ⟨preV, cV, hV, -, -⟩ := ihv cs v1 r heqv
            obtain ⟨preE, hE⟩ := ihe r2 vs rest heqe
            have e2 := dropWhile_decomp heq2
            have e3 : cs = (preV ++ cV :: (r.takeWhile isJsonWs ++ ',' :: preE))
                ++ ']' :: rest := by
              conv_lhs => rw [hV, e2, hE]
              simp
            exact ⟨_, e3⟩
          · exact Option.noConfusion h
        · rename_i r2 heq2
          have h2 := Option.some.inj h
          cases h2
          obtain ⟨preV, cV, hV, -, -⟩ := ihv cs v1 r heqv
          have e2 := dropWhile_decomp heq2
          have e3 : cs = (preV ++ cV :: r.takeWhile isJsonWs) ++ ']' :: rest := by
            conv_lhs => rw [hV, e2]
            simp
          exact ⟨_, e3⟩
        · exact Option.noConfusion h
    · intro cs ms rest h
      simp only [parseMembers] at h
      split at h
      · rename_i r heq
        have e1 := dropWhile_decomp heq
        split at h
        · exact Option.noConfusion h
        · rename_i k r1 heqk
          obtain ⟨preK, hK⟩ := parseStrChars_tail heqk
          split at h
          · rename_i r2 heq2
            have e2 := dropWhile_decomp heq2
            split at h
            · exact Option.noConfusion h
            · rename_i v1 r3 heqv
              obtain ⟨preV, cV, hV, -, -⟩ := ihv r2 v1 r3 heqv
              split at h
              · rename_i r4 heq3
                have e4 := dropWhile_decomp heq3
                split at h
                · rename_i ms2 r5 heqm
                  have h2 := Option.some.inj h
                  cases h2
                  obtain ⟨preM, hM⟩ := ihm r4 ms2 rest heqm
                  have e3 : cs = (cs.takeWhile isJsonWs ++ '"' :: (preK ++ '"' ::
                      (r1.takeWhile isJsonWs ++ ':' :: (preV ++ cV ::
                        (r3.takeWhile isJsonWs ++ ',' :: preM))))) ++ '}' :: rest := by
                    conv_lhs => rw [e1, hK, e2, hV, e4, hM]
                    simp
                  exact ⟨_, e3⟩
                · exact Option.noConfusion h
              · rename_i r4 heq3
                have h2 := Option.some.inj h
                cases h2
                have e4 := dropWhile_decomp heq3
                have e3 : cs = (cs.takeWhile isJsonWs ++ '"' :: (preK ++ '"' ::
                    (r1.takeWhile isJsonWs ++ ':' :: (preV ++ cV ::
                      r3.takeWhile isJsonWs)))) ++ '}' :: rest := by
                  conv_lhs => rw [e1, hK, e2, hV, e4]
                  simp
                exact ⟨_, e3⟩
              · exact Option.noConfusion h
          · exact Option.noConfusion h
      · exact Option.noConfusion h

/-- The stripped data of a string accepted by `json_loads` starts with a
non-backtick, non-whitespace dispatch character and ends with a
non-backtick, non-whitespace character. -/
theorem json_loads_strip_shape {d : String} {v : Json} (h : json_loads d = some v) :
    (∃ c cs2, stripChars d.data = c :: cs2 ∧ c ≠ '`' ∧ isJsonWs c = false) ∧
    (∃ pre clast, stripChars d.data = pre ++ [clast] ∧ clast ≠ '`') := by
  have hnoop : (stripChars d.data).dropWhile isJsonWs = stripChars d.data := by
    apply dropWhile_noop_of_head
    intro c rest he
    exact stripChars_head_not_ws he
  simp only [json_loads] at h
  split at h
  · rename_i v2 heq
    have h2 := Option.some.inj h
    cases h2
    constructor
    · obtain ⟨c, cs2, hc, hbt⟩ := parseVal_dispatch heq
      rw [hnoop] at hc
      exact ⟨c, cs2, hc, hbt, stripChars_head_not_ws hc⟩
    · obtain ⟨pre, c, hc, hbt, -⟩ := (parse_consumed_tail _).1 _ _ _ heq
      exact ⟨pre, c, hc, hbt⟩
  · exact Option.noConfusion h

/-- When the completion text parses as JSON, `_clean_json_response` finds
no fences and reduces to plain stripping. -/
theorem clean_json_response_of_loads {d : String} {v : Json}
    (h : json_loads d = some v) : clean_json_response d = some (py_strip d) := by
  obtain ⟨⟨c, cs2, hhead, hcbt, -⟩, ⟨pre, clast, hlast, hlbt⟩⟩ := json_loads_strip_shape h
  have hsf : startsWithFence (stripChars d.data) = false := by
    rw [hhead]
    unfold startsWithFence
    split
    · rename_i x heqx
      exact absurd (List.cons.inj heqx).1 hcbt
    · rfl
  have hef : startsWithFence (stripChars d.data).reverse = false := by
    have hrev : (stripChars d.data).reverse = clast :: pre.reverse := by
      rw [hlast]; simp
    rw [hrev]
    unfold startsWithFence
    split
    · rename_i x heqx
      exact absurd (List.cons.inj heqx).1 hlbt
    · rfl
  simp [clean_json_response, py_strip, hsf, hef, stripChars_idem]

/-- `_clean_json_response` on a fenced completion: the fences are removed
and the result is the stripped inner text, for every inner text. -/
theorem clean_json_response_fence_wrap (d : String) :
    clean_json_response (fence_wrap d) = some (py_strip d) := by
  have hdata : (fence_wrap d).data =
      '`' :: '`' :: '`' :: 'j' :: 's' :: 'o' :: 'n' :: '\n' ::
        (d.data ++ [ '\n', '`', '`', '`' ]) := by
    show (("```json\n" ++ d) ++ "\n```").data = _
    rw [String.data_append, String.data_append]
    rfl
  have hstrip : stripChars ((fence_wrap d).data) = (fence_wrap d).data := by
    apply stripChars_noop
    · apply dropWhile_noop_of_head
      intro c2 rest he
      rw [hdata] at he
      have := (List.cons.inj he).1
      rw [← this]; decide
    · apply dropWhile_noop_of_head
      intro c2 rest he
      have hrev : ((fence_wrap d).data).reverse =
          '`' :: '`' :: '`' :: '\n' :: (d.data.reverse ++
            [ '\n', 'n', 'o', 's', 'j', '`', '`', '`' ]) := by
        rw [hdata]; simp
      rw [hrev] at he
      have := (List.cons.inj he).1
      rw [← this]; decide
  have hrev2 : ((d.data ++ [ '\n', '`', '`', '`' ]) : List Char).reverse =
      '`' :: '`' :: '`' :: '\n' :: d.data.reverse := by simp
  have hdrop : dropFenceLine ('`' :: '`' :: '`' :: 'j' :: 's' :: 'o' :: 'n' :: '\n' ::
      (d.data ++ [ '\n', '`', '`', '`' ])) = some (d.data ++ [ '\n', '`', '`', '`' ]) := rfl
  have hback : (('`' :: '`' :: '`' :: '\n' :: d.data.reverse).drop 3).reverse =
      d.data ++ [ '\n' ] := by simp
  have hstrip2 : stripChars ((fence_wrap d).data) =
      '`' :: '`' :: '`' :: 'j' :: 's' :: 'o' :: 'n' :: '\n' ::
        (d.data ++ [ '\n', '`', '`', '`' ]) := by rw [hstrip, hdata]
  simp only [clean_json_response, hstrip2]
  rw [show startsWithFence ('`' :: '`' :: '`' :: 'j' :: 's' :: 'o' :: 'n' :: '\n' ::
    (d.data ++ [ '\n', '`', '`', '`' ])) = true from rfl]
  simp only [if_true, hdrop, hrev2]
  rw [show startsWithFence ('`' :: '`' :: '`' :: '\n' :: d.data.reverse) = true from rfl]
  simp only [if_true, hback]
  rw [stripChars_append_ws (by decide)]
  rfl

/-- `json.loads` is unaffected by pre-stripping its input. -/
theorem json_loads_py_strip (d : String) : json_loads (py_strip d) = json_loads d := by
  simp only [json_loads, py_strip]
  rw [stripChars_idem]

/-- C5: for every completion content that is a valid JSON document, the
normalizer gives the same result whether or not the content is wrapped in a
leading ```` ```json ```` fence line and a trailing ```` ``` ```` fence —
the fences are stripped before parsing, and both forms normalize to the
parsed document. -/
theorem summarize_normalize_strips_fences (d : String) (v : Json)
    (h : json_loads d = some v) :
    summarize_normalize (fence_wrap d) = summarize_normalize d ∧
      summarize_normalize d = some v := by
  have hc1 : clean_json_response (fence_wrap d) = some (py_strip d) :=
    clean_json_response_fence_wrap d
  have hc2 : clean_json_response d = some (py_strip d) := clean_json_response_of_loads h
  have hl : json_loads (py_strip d) = some v := by rw [json_loads_py_strip]; exact h
  constructor
  · simp only [summarize_normalize, hc1, hc2, hl]
  · simp only [summarize_normalize, hc2, hl]

/-- C5 witness: a concrete fenced document. -/
theorem summarize_normalize_strips_fences_witness :
    json_loads "\x7b\"quick\": 1\x7d" = some (Json.obj [("quick", Json.num "1")]) ∧
    summarize_normalize (fence_wrap "\x7b\"quick\": 1\x7d") =
      summarize_normalize "\x7b\"quick\": 1\x7d" ∧
    summarize_normalize "\x7b\"quick\": 1\x7d" = some (Json.obj [("quick", Json.num "1")]) :=
  ⟨rfl, summarize_normalize_strips_fences "\x7b\"quick\": 1\x7d"
    (Json.obj [("quick", Json.num "1")]) rfl⟩
